import Mathlib

/-!
Shallow embedding of the dispatch-and-fallback orchestrator in
`src/packages/ai/src/ai.ts` (class `AI`).

Modelling conventions:
* A backend invocation (`getAdapter(name).<op>({model, ...})`) is abstracted as a
  function `call : Fallback → Except ε ρ` (promise mode) or
  `Fallback → List StreamChunk × Option ε` (streaming mode, the list being the
  chunks produced before the iterator either finishes or raises).  The
  `getAdapter` lookup failure is one more way `call` can fail; it is raised
  inside the same `try` blocks as the backend call itself, so folding it into
  `call` is faithful.
* JavaScript exceptions are values of an opaque type `ε`; the code only ever
  reads `error.message`, modelled by an explicit `msg : ε → String`.
* Each orchestrator function additionally returns the ordered trace of the
  backend invocations it performed (`trace : List Fallback`); the source makes
  exactly one backend call per loop iteration at the traced points.
* `console.warn` logging and the `Date.now()/Math.random()` metadata of the
  synthetic tool-execution chunk (`id`, `model`, `timestamp`, `delta`) are
  elided; the operation-name string interpolated into thrown error messages is
  elided, the structured per-attempt diagnostic list is kept instead.
-/

/-- One fallback entry: an (adapter name, model identifier) pair
(`AdapterFallback` in the source). -/
structure Fallback where
  adapter : String
  model : String
deriving DecidableEq

/-- One element of the `errors` array accumulated by the fallback walkers:
`{adapter, model, error}` with only the error's `.message` retained. -/
structure AttemptErr where
  adapter : String
  model : String
  message : String
deriving DecidableEq

/-- Failure outcome of a promise-mode operation. `backend e` is a raised
backend error propagated unchanged (`throw primaryError`); `allFailed` is the
`"All adapters failed"` error carrying the per-attempt diagnostics;
`noFallbacks` is the `"No fallbacks specified"` error. -/
inductive PromiseFail (ε : Type) where
  | backend (e : ε)
  | allFailed (errors : List AttemptErr)
  | noFallbacks
deriving DecidableEq

/-- Result of `tryWithFallback`: the value or the accumulated diagnostics,
plus the trace of entries actually attempted. -/
structure FallbackRun (ε ρ : Type) where
  result : Except (List AttemptErr) ρ
  trace : List Fallback

/-- Result of a promise-mode operation plus its backend-invocation trace. -/
structure PromiseRun (ε ρ : Type) where
  result : Except (PromiseFail ε) ρ
  trace : List Fallback

/-- Embedding of `AI.tryWithFallback` (ai.ts:222-254): walk the list in order,
return the first success; on failure push `{adapter, model, message}` onto
`errs` and continue; when the list is exhausted the accumulated list is the
failure payload. -/
def tryWithFallback {ε ρ : Type} (call : Fallback → Except ε ρ) (msg : ε → String) :
    List Fallback → List AttemptErr → FallbackRun ε ρ
  | [], errs => ⟨.error errs, []⟩
  | f :: rest, errs =>
    match call f with
    | .ok r => ⟨.ok r, [f]⟩
    | .error e =>
      let r := tryWithFallback call msg rest (errs ++ [⟨f.adapter, f.model, msg e⟩])
      ⟨r.result, f :: r.trace⟩

/-- Embedding of the effective-fallback-list computation
(`fallbacks && fallbacks.length > 0 ? fallbacks : this.fallbacks`, ai.ts:350
and ai.ts:378-380 and the analogous lines of the other operations).
`perCall = none` models a call without a `fallbacks` field; `cfg` is
`this.fallbacks` from the constructor. -/
def resolveFallbackList (cfg : Option (List Fallback)) (perCall : Option (List Fallback)) :
    Option (List Fallback) :=
  match perCall with
  | some l => if l.length > 0 then some l else cfg
  | none => cfg

/-- The two shapes of a promise-mode options record: the discriminated union
`...OptionsWithAdapter | ...OptionsWithFallback`, discriminated in the source
by `"adapter" in options`. -/
inductive PromiseOptions where
  | withAdapter (adapter model : String) (fallbacks : Option (List Fallback))
  | fallbackOnly (fallbacks : List Fallback)

/-- Embedding of the promise-mode orchestration shared verbatim by
`chatPromise` (ai.ts:341-416), `generateText` (ai.ts:717-783), `summarize`
(ai.ts:901-967) and `embed` (ai.ts:973-1039); the four differ only in which
backend method `call` stands for and in the operation-name string of log/error
messages. (`chatPromise` additionally resolves tool names before any backend
call; that step is orthogonal to dispatch and omitted here.)
Note that after a primary failure the source calls `tryWithFallback` with a
fresh, empty `errors` array: the primary's failure is logged but not part of
the final diagnostic list. -/
def promiseOp {ε ρ : Type} (cfg : Option (List Fallback))
    (call : Fallback → Except ε ρ) (msg : ε → String) :
    PromiseOptions → PromiseRun ε ρ
  | .fallbackOnly fl =>
    match resolveFallbackList cfg (some fl) with
    | none => ⟨.error .noFallbacks, []⟩
    | some [] => ⟨.error .noFallbacks, []⟩
    | some (f0 :: restChain) =>
      let r := tryWithFallback call msg (f0 :: restChain) []
      ⟨r.result.mapError PromiseFail.allFailed, r.trace⟩
  | .withAdapter a m fb =>
    match call ⟨a, m⟩ with
    | .ok res => ⟨.ok res, [⟨a, m⟩]⟩
    | .error e =>
      match resolveFallbackList cfg fb with
      | none => ⟨.error (.backend e), [⟨a, m⟩]⟩
      | some [] => ⟨.error (.backend e), [⟨a, m⟩]⟩
      | some (f0 :: restChain) =>
        let r := tryWithFallback call msg (f0 :: restChain) []
        ⟨r.result.mapError PromiseFail.allFailed, ⟨a, m⟩ :: r.trace⟩

/-- Observation helper: the diagnostic entry the walker records for a failing
entry `f` (its adapter, model, and the message of `call f`'s error). -/
def attemptErrOf {ε ρ : Type} (call : Fallback → Except ε ρ) (msg : ε → String)
    (f : Fallback) : AttemptErr :=
  ⟨f.adapter, f.model, match call f with | .error e => msg e | .ok _ => ""⟩

/-- One element of a streamed response (`StreamChunk` in types.ts as consumed
by ai.ts): a content delta, a tool-call fragment (`chunk.index`,
`chunk.toolCall.id`, `chunk.toolCall.function.name`,
`chunk.toolCall.function.arguments`, flattened), a terminal chunk with its
finish reason, or an error chunk carrying `chunk.error.message`. -/
inductive StreamChunk where
  | content (text : String)
  | toolCallFrag (index : Nat) (id : String) (name : String) (args : String)
  | done (finishReason : String)
  | error (message : String)
deriving DecidableEq

/-- Discriminator for `chunk.type === "error"`. -/
def isErrChunk : StreamChunk → Bool
  | .error _ => true
  | _ => false

/-- Message of the first error-tagged chunk of a stream, if any — the point at
which the consuming loops `break` without forwarding the chunk. -/
def firstErrorMsg : List StreamChunk → Option String
  | [] => none
  | .error m :: _ => some m
  | _ :: rest => firstErrorMsg rest

/-- Embedding of `errorChunk.error.message || "Unknown error"`: an empty (falsy)
message is replaced by `"Unknown error"` when the error chunk is converted to a
thrown `Error`. -/
def chunkFailMsg (m : String) : String := if m = "" then "Unknown error" else m

/-- Failure outcome of a streaming-mode operation. `raised e` is an uncaught
backend exception propagated unchanged; `chunkError m` is the `Error(m)`
synthesized from a terminal error chunk and rethrown when no fallback absorbs
it; `allFailed` and `noFallbacks` are as in promise mode. -/
inductive StreamFail (ε : Type) where
  | raised (e : ε)
  | chunkError (message : String)
  | allFailed (errors : List AttemptErr)
  | noFallbacks
deriving DecidableEq

/-- Result of a streaming-mode operation: the chunks forwarded to the caller in
order, the trace of backend streaming calls made, and the terminal failure (if
the generator ended by throwing rather than returning). -/
structure StreamRun (ε : Type) where
  output : List StreamChunk
  trace : List Fallback
  failure : Option (StreamFail ε)
deriving DecidableEq

/-- Embedding of `AI.tryStreamWithFallback` (ai.ts:259-310): for each entry,
consume its stream forwarding every chunk until an error-tagged chunk is seen
(the error chunk is not forwarded; the attempt is failed with its message) or
the iterator raises (after its produced chunks were already forwarded); a
failed attempt is recorded and the next entry tried; a completed attempt ends
the walk; exhaustion throws the all-adapters-failed error.  The backend stream
for entry `f` is `call f = (chunks produced, optional raise after them)`. -/
def tryStreamWithFallback {ε : Type} (call : Fallback → List StreamChunk × Option ε)
    (msg : ε → String) : List Fallback → List AttemptErr → StreamRun ε
  | [], errs => ⟨[], [], some (.allFailed errs)⟩
  | f :: rest, errs =>
    let cs := (call f).1
    let fwd := cs.takeWhile fun c => !(isErrChunk c)
    match firstErrorMsg cs with
    | some m =>
      let r := tryStreamWithFallback call msg rest
        (errs ++ [⟨f.adapter, f.model, chunkFailMsg m⟩])
      ⟨fwd ++ r.output, f :: r.trace, r.failure⟩
    | none =>
      match (call f).2 with
      | none => ⟨fwd, [f], none⟩
      | some e =>
        let r := tryStreamWithFallback call msg rest
          (errs ++ [⟨f.adapter, f.model, msg e⟩])
        ⟨fwd ++ r.output, f :: r.trace, r.failure⟩

/-- Embedding of the single-adapter-mode streaming walk without tool executors
(ai.ts:500-596): primary attempt with the same forwarding/either-failure
semantics; on primary failure with no effective chain the primary's error
(original raise, or the `Error` synthesized from the error chunk) propagates;
otherwise the chain is walked exactly as `tryStreamWithFallback` does
(ai.ts:546-585 inline a copy of that loop), with the `errors` array seeded
with the primary's failure (ai.ts:532-536). -/
def chatStreamAdapterMode {ε : Type} (call : Fallback → List StreamChunk × Option ε)
    (msg : ε → String) (primary : Fallback) (fallbackList : Option (List Fallback)) :
    StreamRun ε :=
  let cs := (call primary).1
  let fwd := cs.takeWhile fun c => !(isErrChunk c)
  match firstErrorMsg cs with
  | some m =>
    let em := chunkFailMsg m
    match fallbackList with
    | none => ⟨fwd, [primary], some (.chunkError em)⟩
    | some [] => ⟨fwd, [primary], some (.chunkError em)⟩
    | some (f0 :: restChain) =>
      let r := tryStreamWithFallback call msg (f0 :: restChain)
        [⟨primary.adapter, primary.model, em⟩]
      ⟨fwd ++ r.output, primary :: r.trace, r.failure⟩
  | none =>
    match (call primary).2 with
    | none => ⟨fwd, [primary], none⟩
    | some e =>
      match fallbackList with
      | none => ⟨fwd, [primary], some (.raised e)⟩
      | some [] => ⟨fwd, [primary], some (.raised e)⟩
      | some (f0 :: restChain) =>
        let r := tryStreamWithFallback call msg (f0 :: restChain)
          [⟨primary.adapter, primary.model, msg e⟩]
        ⟨fwd ++ r.output, primary :: r.trace, r.failure⟩

/-- A finalized tool call (`ToolCall` in types.ts: `{id, type: "function",
function: {name, arguments}}`, flattened; the constant `type` tag is
elided). -/
structure ToolCall where
  id : String
  name : String
  arguments : String
deriving DecidableEq

/-- An in-progress entry of the tool-call accumulator
(`{id, name, args}` values of `toolCallsMap`, ai.ts:608-611). -/
structure AccEntry where
  id : String
  name : String
  args : String
deriving DecidableEq

/-- Lookup in the accumulator, modelling `Map.get` on `toolCallsMap`. -/
def mapGet : List (Nat × AccEntry) → Nat → Option AccEntry
  | [], _ => none
  | (k, v) :: rest, i => if k = i then some v else mapGet rest i

/-- Update in the accumulator, modelling `Map.set`: replaces the value of an
existing key in place, otherwise appends — so the entry list preserves the
JavaScript `Map`'s insertion order, which is also its `forEach` iteration
order. -/
def mapSet : List (Nat × AccEntry) → Nat → AccEntry → List (Nat × AccEntry)
  | [], i, v => [(i, v)]
  | (k, w) :: rest, i, v =>
    if k = i then (i, v) :: rest else (k, w) :: mapSet rest i v

/-- Per-round streaming state of the tool-execution loop: the accumulator
`toolCallsMap`, the `hasToolCalls` flag, and the finalized `toolCalls` list
(ai.ts:607-612). -/
structure RoundState where
  acc : List (Nat × AccEntry)
  hasToolCalls : Bool
  toolCalls : List ToolCall
deriving DecidableEq

/-- Embedding of the chunk-processing body of the tool-execution loop's
streaming `for await` (ai.ts:623-651): a tool-call fragment updates the
accumulator at its stream index (creating an entry with the fragment's id and
empty name/args; the name is overwritten only when the fragment's name is
truthy, i.e. non-empty; the argument fragment is always appended); a terminal
chunk with finish reason `"tool_calls"` sets `hasToolCalls` and pushes every
accumulator entry, in the map's insertion order, onto the finalized list. -/
def roundStep (st : RoundState) (c : StreamChunk) : RoundState :=
  match c with
  | .toolCallFrag index id nm args =>
    let existing := (mapGet st.acc index).getD ⟨id, "", ""⟩
    let named := if nm ≠ "" then { existing with name := nm } else existing
    let updated := { named with args := named.args ++ args }
    { st with acc := mapSet st.acc index updated }
  | .done fr =>
    if fr = "tool_calls" then
      { st with hasToolCalls := true,
                toolCalls := st.toolCalls ++
                  st.acc.map (fun p => ⟨p.2.id, p.2.name, p.2.args⟩) }
    else st
  | _ => st

/-- State after consuming one round's whole chunk sequence, starting from the
fresh per-round state (empty map, `hasToolCalls = false`, empty list). -/
def runRound (cs : List StreamChunk) : RoundState :=
  cs.foldl roundStep ⟨[], false, []⟩

/-- A conversation message as manipulated by the tool-execution loop: role,
optional textual content (`null` for the assistant tool-call message), the
tool calls carried by an assistant message, and the `toolCallId`/`name` fields
of a tool-result message. -/
structure Message where
  role : String
  content : Option String
  toolCalls : List ToolCall
  toolCallId : Option String
  name : Option String
deriving DecidableEq

/-- A registered tool as seen by the loop: its function name and optional
executable function from parsed arguments (of an abstract JSON type `J`) to a
textual result; both parsing and execution may fail with a message. -/
structure Tool (J : Type) where
  name : String
  execute : Option (J → Except String String)

/-- The body `JSON.stringify({error: message})` of a tool-result message
recording a parse or invocation failure (ai.ts:697), for messages needing no
JSON string escaping. -/
def errorBody (m : String) : String := "\x7b\"error\":\"" ++ m ++ "\"\x7d"

/-- A tool-result conversation message (ai.ts:677-682 and ai.ts:695-700). -/
def toolResultMsg (body : String) (callId nm : String) : Message :=
  ⟨"tool", some body, [], some callId, some nm⟩

/-- The synthetic content chunk announcing a tool execution (ai.ts:685-693;
its `id`/`model`/`timestamp`/`delta` metadata elided). -/
def toolExecChunk (nm : String) : StreamChunk :=
  .content ("[Tool " ++ nm ++ " executed]")

/-- Embedding of the tool-execution pass over one round's finalized tool calls
(ai.ts:667-703): for each call, find the first supplied tool with the same
function name; if it has an executable function, parse the concatenated
argument text and invoke it — on success append a tool-result message and emit
the synthetic announcement chunk; on parse or invocation failure append a
tool-result message whose body is the structured error payload (and emit no
chunk); tools that are missing or lack an executable function are skipped.
Returns the extended conversation and the chunks emitted, in order. -/
def execTools {J : Type} (parse : String → Except String J) (tools : List (Tool J)) :
    List ToolCall → List Message → List Message × List StreamChunk
  | [], msgs => (msgs, [])
  | tc :: rest, msgs =>
    match tools.find? (fun t => t.name == tc.name) with
    | some t =>
      match t.execute with
      | some ex =>
        match parse tc.arguments with
        | .ok args =>
          match ex args with
          | .ok result =>
            let r := execTools parse tools rest
              (msgs ++ [toolResultMsg result tc.id tc.name])
            (r.1, toolExecChunk tc.name :: r.2)
          | .error em =>
            execTools parse tools rest
              (msgs ++ [toolResultMsg (errorBody em) tc.id tc.name])
        | .error em =>
          execTools parse tools rest
            (msgs ++ [toolResultMsg (errorBody em) tc.id tc.name])
      | none => execTools parse tools rest msgs
    | none => execTools parse tools rest msgs

/-- Result of the tool-execution loop: forwarded chunks, backend streaming
calls made (in order), an uncaught backend raise if one aborted the stream,
and the final conversation. -/
structure LoopRun (ε : Type) where
  output : List StreamChunk
  trace : List Fallback
  raised : Option ε
  messages : List Message

/-- The assistant message carrying one round's finalized tool calls
(ai.ts:660-664). -/
def assistantToolCallMsg (tcs : List ToolCall) : Message :=
  ⟨"assistant", none, tcs, none, none⟩

/-- Embedding of the tool-execution loop (ai.ts:600-707): at most
`maxIterations` rounds (the `fuel` argument); each round makes one streaming
call to the single chosen adapter/model with the current conversation,
forwards every chunk unconditionally (error chunks included) while folding
`roundStep`; a backend raise propagates immediately (chunks already produced
stay forwarded); a round with no tool-triggering terminal or an empty
finalized list ends the loop; otherwise the assistant tool-call message is
appended, the tools are executed via `execTools`, and the loop re-enters with
the extended conversation.  No fallback chain is consulted anywhere in this
loop. -/
def toolLoop {ε J : Type} (call : Fallback → List Message → List StreamChunk × Option ε)
    (parse : String → Except String J) (tools : List (Tool J)) (chosen : Fallback) :
    Nat → List Message → LoopRun ε
  | 0, msgs => ⟨[], [], none, msgs⟩
  | fuel + 1, msgs =>
    let cs := (call chosen msgs).1
    match (call chosen msgs).2 with
    | some e => ⟨cs, [chosen], some e, msgs⟩
    | none =>
      let st := runRound cs
      if st.hasToolCalls = false ∨ st.toolCalls = [] then ⟨cs, [chosen], none, msgs⟩
      else
        let stepped := execTools parse tools st.toolCalls
          (msgs ++ [assistantToolCallMsg st.toolCalls])
        let r := toolLoop call parse tools chosen fuel stepped.1
        ⟨cs ++ stepped.2 ++ r.output, chosen :: r.trace, r.raised, r.messages⟩

/-- Embedding of `restOptions.maxIterations ?? 5` (ai.ts:600). -/
def effectiveMaxIterations (o : Option Nat) : Nat := o.getD 5

/-- The two shapes of a streaming chat options record, after tool names have
been resolved to `Tool` objects (`tools` is `none` when the field was
absent). -/
inductive StreamOptions (J : Type) where
  | withAdapter (adapter model : String) (fallbacks : Option (List Fallback))
      (tools : Option (List (Tool J))) (messages : List Message)
      (maxIterations : Option Nat)
  | fallbackOnly (fallbacks : List Fallback)
      (tools : Option (List (Tool J))) (messages : List Message)
      (maxIterations : Option Nat)

/-- Whether any resolved tool carries an executable function
(`toolObjects?.some((t) => t.execute)`, ai.ts:479). -/
def hasToolExecutors {J : Type} (tools : Option (List (Tool J))) : Bool :=
  (tools.getD []).any fun t => t.execute.isSome

/-- Embedding of `AI.chatStream` (ai.ts:435-707): resolve the mode and the
effective fallback list; in fallback-only mode an empty effective list fails
with the no-fallbacks error before any backend call, and the first chain entry
becomes the primary; with at least one executable tool the tool-execution loop
runs against the single chosen adapter/model (a raise there surfaces as
`StreamFail.raised`); without executable tools the fallback-only mode streams
via `tryStreamWithFallback` and the single-adapter mode via
`chatStreamAdapterMode`. -/
def chatStream {ε J : Type} (cfg : Option (List Fallback))
    (bstream : Fallback → List Message → List StreamChunk × Option ε)
    (msg : ε → String) (parse : String → Except String J) :
    StreamOptions J → StreamRun ε
  | .fallbackOnly fl tools messages maxIt =>
    match resolveFallbackList cfg (some fl) with
    | none => ⟨[], [], some .noFallbacks⟩
    | some [] => ⟨[], [], some .noFallbacks⟩
    | some (f0 :: restChain) =>
      if hasToolExecutors tools then
        let r := toolLoop bstream parse (tools.getD []) f0
          (effectiveMaxIterations maxIt) messages
        ⟨r.output, r.trace, r.raised.map .raised⟩
      else
        tryStreamWithFallback (fun f => bstream f messages) msg (f0 :: restChain) []
  | .withAdapter a m fb tools messages maxIt =>
    if hasToolExecutors tools then
      let r := toolLoop bstream parse (tools.getD []) ⟨a, m⟩
        (effectiveMaxIterations maxIt) messages
      ⟨r.output, r.trace, r.raised.map .raised⟩
    else
      chatStreamAdapterMode (fun f => bstream f messages) msg ⟨a, m⟩
        (resolveFallbackList cfg fb)

/-- Stream indices of the tool-call fragments of a chunk sequence, in arrival
order. -/
def fragIndices : List StreamChunk → List Nat
  | [] => []
  | .toolCallFrag i _ _ _ :: rest => i :: fragIndices rest
  | _ :: rest => fragIndices rest

/-- First occurrences, in order, of the elements of a list that are not in
`seen`: the keys a JavaScript `Map` built by repeated `set` holds, in
insertion order, after starting with the keys `seen`. -/
def newKeys : List Nat → List Nat → List Nat
  | _, [] => []
  | seen, i :: rest =>
    if i ∈ seen then newKeys seen rest else i :: newKeys (seen ++ [i]) rest

/-- Concrete witness tool: an executable tool named `"f"` echoing its parsed
arguments. -/
def toolW : Tool String := ⟨"f", some fun a => .ok a⟩

/-- Concrete witness parser: accepts any argument text as-is. -/
def parseOk : String → Except String String := fun s => .ok s

/-- Concrete witness backend whose every round signals
`finish_reason = "tool_calls"` with one finalized tool call for tool `"f"`. -/
def bstreamToolCalls : Fallback → List Message → List StreamChunk × Option String :=
  fun _ _ => ([.toolCallFrag 0 "c1" "f" "\"x\"", .done "tool_calls"], none)

/-- Concrete witness parser that rejects every argument text. -/
def parseBad : String → Except String String := fun _ => .error "bad json"

/-- Concrete witness backend that yields a content chunk and an error-tagged
chunk, then raises. -/
def bstreamRaise : Fallback → List Message → List StreamChunk × Option String :=
  fun _ _ => ([.content "hi", .error "oops"], some "boom")

/-- The orchestrator state (class `AI`, ai.ts:161-170): the adapter registry,
the constructor-configured default fallback chain (`undefined` when absent),
and the tool registry; backends and tools themselves are opaque (`α`, `τ`).
Registries are JavaScript objects, modelled as key-ordered association lists
with unique keys. -/
structure AI (α τ : Type) where
  adapters : List (String × α)
  fallbacks : Option (List Fallback)
  tools : List (String × τ)

/-- Object-spread update `{...obj, [name]: value}` (ai.ts:1048): an existing
key keeps its position with the new value, a fresh key is appended. -/
def recordSet {α : Type} : List (String × α) → String → α → List (String × α)
  | [], k, v => [(k, v)]
  | p :: rest, k, v =>
    if p.1 = k then (k, v) :: rest else p :: recordSet rest k v

/-- Property lookup on an object modelled as an association list. -/
def recordLookup {α : Type} : List (String × α) → String → Option α
  | [], _ => none
  | p :: rest, k => if p.1 = k then some p.2 else recordLookup rest k

/-- Embedding of `AI.addAdapter` (ai.ts:1044-1051): builds the extended
adapter object and constructs a fresh `AI` from `{adapters: newAdapters}`
alone — so the constructor (ai.ts:166-170) leaves `fallbacks` undefined and
initializes `tools` to the empty object. -/
def AI.addAdapter {α τ : Type} (ai : AI α τ) (nm : String) (adapter : α) : AI α τ :=
  ⟨recordSet ai.adapters nm adapter, none, []⟩

theorem tryWithFallback_all_fail {ε ρ : Type} (call : Fallback → Except ε ρ)
    (msg : ε → String) (l : List Fallback)
    (h : ∀ f ∈ l, ∃ e, call f = .error e) (errs : List AttemptErr) :
    tryWithFallback call msg l errs =
      ⟨.error (errs ++ l.map (attemptErrOf call msg)), l⟩ := by
  induction l generalizing errs with
  | nil => simp [tryWithFallback]
  | cons f rest ih =>
    obtain ⟨e, he⟩ := h f (by simp)
    have hrest : ∀ g ∈ rest, ∃ e, call g = .error e := fun g hg => h g (by simp [hg])
    simp [tryWithFallback, he, ih hrest, attemptErrOf]

theorem tryWithFallback_first_success {ε ρ : Type} (call : Fallback → Except ε ρ)
    (msg : ε → String) (pre post : List Fallback) (fOK : Fallback) (res : ρ)
    (hpre : ∀ f ∈ pre, ∃ e, call f = .error e) (hOK : call fOK = .ok res)
    (errs : List AttemptErr) :
    tryWithFallback call msg (pre ++ fOK :: post) errs =
      ⟨.ok res, pre ++ [fOK]⟩ := by
  induction pre generalizing errs with
  | nil => simp [tryWithFallback, hOK]
  | cons f rest ih =>
    obtain ⟨e, he⟩ := hpre f (by simp)
    have hrest : ∀ g ∈ rest, ∃ e, call g = .error e := fun g hg => hpre g (by simp [hg])
    simp [tryWithFallback, he, ih hrest]

/-- C1: FALSE as stated.  With `this.fallbacks` unset, primary `("p","pm")`
always failing with message `"boom"` and per-call chain `[("f1","m1")]`, the
promise-mode operation raises the all-adapters-failed error whose diagnostic
list is `[("f1","m1","boom")]` — length 1 = chain length, not
1 (primary) + 1 (chain) = 2, and the primary's failure is absent: the source
calls `tryWithFallback` with a fresh empty `errors` array after the primary
fails (ai.ts:404-414), so the primary's failure is only logged, never
aggregated. -/
theorem C1_counterexample :
    promiseOp none (fun _ => (Except.error "boom" : Except String Unit)) id
        (.withAdapter "p" "pm" (some [⟨"f1", "m1"⟩])) =
      ⟨.error (.allFailed [⟨"f1", "m1", "boom"⟩]), [⟨"p", "pm"⟩, ⟨"f1", "m1"⟩]⟩ ∧
    [(⟨"f1", "m1", "boom"⟩ : AttemptErr)].length ≠ 1 + 1 := by
  constructor
  · rfl
  · decide

/-- C1 (amended): for every promise-mode operation with a primary and a
non-empty effective fallback chain, if the primary attempt and every chain
entry fail, the operation raises `AllAdaptersFailed` carrying one
(backend, model, message) triple per chain entry, in chain order; the
primary's failure is logged but NOT included, so the list has length equal to
the chain length (not 1 + chain length).  The trace shows every attempt was
made: primary first, then the whole chain. -/
theorem C1_allFailed_diagnostics {ε ρ : Type} (cfg : Option (List Fallback))
    (call : Fallback → Except ε ρ) (msg : ε → String) (a m : String)
    (fb : Option (List Fallback)) (e0 : ε) (l : List Fallback)
    (hp : call ⟨a, m⟩ = .error e0)
    (hl : resolveFallbackList cfg fb = some l)
    (hfail : ∀ f ∈ l, ∃ e, call f = .error e) (hne : l ≠ []) :
    promiseOp cfg call msg (.withAdapter a m fb) =
      ⟨.error (.allFailed (l.map (attemptErrOf call msg))), ⟨a, m⟩ :: l⟩ ∧
    (l.map (attemptErrOf call msg)).length = l.length := by
  refine ⟨?_, by simp⟩
  match l, hne with
  | f0 :: restChain, _ =>
    have hall := tryWithFallback_all_fail call msg (f0 :: restChain) hfail []
    simp only [promiseOp, hp, hl, hall]
    simp [Except.mapError]

/-- Witness for `C1_allFailed_diagnostics` at the concrete scenario of
`C1_counterexample`, with an additional distinguishing second chain entry. -/
theorem C1_allFailed_diagnostics_witness :
    promiseOp none (fun f => (Except.error (f.adapter ++ "!") : Except String Unit)) id
        (.withAdapter "p" "pm" (some [⟨"f1", "m1"⟩, ⟨"f2", "m2"⟩])) =
      ⟨.error (.allFailed ([⟨"f1", "m1"⟩, ⟨"f2", "m2"⟩].map
          (attemptErrOf (fun f => (Except.error (f.adapter ++ "!") : Except String Unit)) id))),
        [⟨"p", "pm"⟩, ⟨"f1", "m1"⟩, ⟨"f2", "m2"⟩]⟩ ∧
    ([⟨"f1", "m1"⟩, ⟨"f2", "m2"⟩].map
        (attemptErrOf (fun f => (Except.error (f.adapter ++ "!") : Except String Unit)) id)).length =
      ([⟨"f1", "m1"⟩, ⟨"f2", "m2"⟩] : List Fallback).length :=
  C1_allFailed_diagnostics none _ id "p" "pm" (some [⟨"f1", "m1"⟩, ⟨"f2", "m2"⟩])
    "p!" [⟨"f1", "m1"⟩, ⟨"f2", "m2"⟩] rfl rfl
    (fun f _ => ⟨f.adapter ++ "!", rfl⟩) (by decide)

/-- C2: for every promise-mode operation given a primary adapter: if the
primary call succeeds its result is returned and no fallback backend is ever
called (the trace is exactly the primary); if the primary call raises and the
effective fallback chain is empty or absent, the exact primary error is
re-raised unchanged (`PromiseFail.backend e` with the same `e`, no wrapping),
again with no fallback called. -/
theorem C2_primary_success_or_passthrough {ε ρ : Type} (cfg : Option (List Fallback))
    (call : Fallback → Except ε ρ) (msg : ε → String) (a m : String)
    (fb : Option (List Fallback)) :
    (∀ res, call ⟨a, m⟩ = .ok res →
      promiseOp cfg call msg (.withAdapter a m fb) = ⟨.ok res, [⟨a, m⟩]⟩) ∧
    (∀ e, call ⟨a, m⟩ = .error e →
      (resolveFallbackList cfg fb = none ∨ resolveFallbackList cfg fb = some []) →
      promiseOp cfg call msg (.withAdapter a m fb) = ⟨.error (.backend e), [⟨a, m⟩]⟩) := by
  constructor
  · intro res hres
    simp [promiseOp, hres]
  · intro e he hempty
    rcases hempty with h | h <;> simp [promiseOp, he, h]

/-- Witness for `C2_primary_success_or_passthrough`: a succeeding primary
returns its result with a one-call trace, and a failing primary with no
configured fallbacks re-raises its own error. -/
theorem C2_witness :
    promiseOp none (fun _ => (Except.ok 7 : Except String Nat)) id
        (.withAdapter "p" "pm" none) = ⟨.ok 7, [⟨"p", "pm"⟩]⟩ ∧
    promiseOp none (fun _ => (Except.error "down" : Except String Nat)) id
        (.withAdapter "p" "pm" (some [])) = ⟨.error (.backend "down"), [⟨"p", "pm"⟩]⟩ :=
  ⟨(C2_primary_success_or_passthrough none _ id "p" "pm" none).1 7 rfl,
   (C2_primary_success_or_passthrough none _ id "p" "pm" (some [])).2 "down" rfl
     (Or.inl rfl)⟩

/-- C3: for a promise-mode call whose primary fails and whose effective chain
is `pre ++ fOK :: post` with every entry of `pre` failing and `fOK` the first
to succeed (at 1-based chain position k = `pre.length + 1`), the backend is
invoked exactly k+1 times — the primary and then the first k chain entries in
chain order — and the operation's result is `fOK`'s result. -/
theorem C3_first_success_attempt_count {ε ρ : Type} (cfg : Option (List Fallback))
    (call : Fallback → Except ε ρ) (msg : ε → String) (a m : String)
    (fb : Option (List Fallback)) (e0 : ε) (pre post : List Fallback)
    (fOK : Fallback) (res : ρ)
    (hp : call ⟨a, m⟩ = .error e0)
    (hl : resolveFallbackList cfg fb = some (pre ++ fOK :: post))
    (hpre : ∀ f ∈ pre, ∃ e, call f = .error e)
    (hOK : call fOK = .ok res) :
    promiseOp cfg call msg (.withAdapter a m fb) =
      ⟨.ok res, ⟨a, m⟩ :: (pre ++ [fOK])⟩ ∧
    (⟨a, m⟩ :: (pre ++ [fOK]) : List Fallback).length = (pre.length + 1) + 1 := by
  refine ⟨?_, by simp⟩
  have hrun := tryWithFallback_first_success call msg pre post fOK res hpre hOK []
  cases pre with
  | nil =>
    simp only [List.nil_append] at hl hrun
    simp only [promiseOp, hp, hl]
    simp [hrun, Except.mapError]
  | cons p ps =>
    simp only [List.cons_append] at hl hrun
    simp only [promiseOp, hp, hl]
    simp [hrun, Except.mapError]

/-- Witness for `C3_first_success_attempt_count`: primary fails, chain
`[("f1","m1"), ("f2","m2"), ("f3","m3")]` with the first entry failing and the
second succeeding: three calls total, third entry never invoked, result is the
second entry's. -/
theorem C3_witness :
    promiseOp none
        (fun f => if f.adapter = "f2" then (Except.ok 42 : Except String Nat)
                  else .error "down") id
        (.withAdapter "p" "pm" (some [⟨"f1", "m1"⟩, ⟨"f2", "m2"⟩, ⟨"f3", "m3"⟩])) =
      ⟨.ok 42, ⟨"p", "pm"⟩ :: ([⟨"f1", "m1"⟩] ++ [⟨"f2", "m2"⟩])⟩ ∧
    (⟨"p", "pm"⟩ :: ([⟨"f1", "m1"⟩] ++ [⟨"f2", "m2"⟩]) : List Fallback).length =
      (([⟨"f1", "m1"⟩] : List Fallback).length + 1) + 1 :=
  C3_first_success_attempt_count none _ id "p" "pm"
    (some [⟨"f1", "m1"⟩, ⟨"f2", "m2"⟩, ⟨"f3", "m3"⟩]) "down"
    [⟨"f1", "m1"⟩] [⟨"f3", "m3"⟩] ⟨"f2", "m2"⟩ 42 rfl rfl
    (fun f hf => ⟨"down", by
      simp only [List.mem_singleton] at hf
      subst hf
      rfl⟩) rfl

/-- C4: the effective fallback chain is the per-call list whenever it has at
least one entry, and otherwise the constructor-configured default; in
fallback-only mode with both lists empty or absent, the operation fails with
the no-fallbacks-configured error with an empty invocation trace, i.e. before
any backend is called. -/
theorem C4_effective_chain_resolution {ε ρ : Type} :
    (∀ (cfg : Option (List Fallback)) (l : List Fallback), l ≠ [] →
      resolveFallbackList cfg (some l) = some l) ∧
    (∀ cfg : Option (List Fallback),
      resolveFallbackList cfg (some []) = cfg ∧ resolveFallbackList cfg none = cfg) ∧
    (∀ (call : Fallback → Except ε ρ) (msg : ε → String),
      promiseOp none call msg (.fallbackOnly []) = ⟨.error .noFallbacks, []⟩ ∧
      promiseOp (some []) call msg (.fallbackOnly []) = ⟨.error .noFallbacks, []⟩) := by
  refine ⟨?_, ?_, ?_⟩
  · intro cfg l hl
    cases l with
    | nil => exact absurd rfl hl
    | cons x xs => simp [resolveFallbackList]
  · intro cfg
    exact ⟨rfl, rfl⟩
  · intro call msg
    exact ⟨rfl, rfl⟩

/-- Witness for `C4_effective_chain_resolution`: a non-empty per-call chain
wins over the configured default, an empty per-call chain defers to it, and
fallback-only mode with nothing configured fails before any backend call. -/
theorem C4_witness :
    resolveFallbackList (some [⟨"d", "dm"⟩]) (some [⟨"f1", "m1"⟩]) = some [⟨"f1", "m1"⟩] ∧
    resolveFallbackList (some [⟨"d", "dm"⟩]) (some []) = some [⟨"d", "dm"⟩] ∧
    resolveFallbackList (some [⟨"d", "dm"⟩]) none = some [⟨"d", "dm"⟩] ∧
    promiseOp none (fun _ => (Except.ok 0 : Except String Nat)) id (.fallbackOnly []) =
      ⟨.error .noFallbacks, []⟩ :=
  ⟨(C4_effective_chain_resolution (ε := String) (ρ := Nat)).1 (some [⟨"d", "dm"⟩])
      [⟨"f1", "m1"⟩] (by decide),
   ((C4_effective_chain_resolution (ε := String) (ρ := Nat)).2.1 (some [⟨"d", "dm"⟩])).1,
   ((C4_effective_chain_resolution (ε := String) (ρ := Nat)).2.1 (some [⟨"d", "dm"⟩])).2,
   ((C4_effective_chain_resolution (ε := String) (ρ := Nat)).2.2
      (fun _ => (Except.ok 0 : Except String Nat)) id).1⟩

theorem firstErrorMsg_append_error (pre : List StreamChunk) (m : String)
    (post : List StreamChunk) (hpre : ∀ c ∈ pre, isErrChunk c = false) :
    firstErrorMsg (pre ++ .error m :: post) = some m := by
  induction pre with
  | nil => rfl
  | cons c rest ih =>
    have hc := hpre c (by simp)
    have hrest : ∀ c ∈ rest, isErrChunk c = false := fun d hd => hpre d (by simp [hd])
    cases c <;> simp_all [firstErrorMsg, isErrChunk]

theorem takeWhile_append_error (pre : List StreamChunk) (m : String)
    (post : List StreamChunk) (hpre : ∀ c ∈ pre, isErrChunk c = false) :
    (pre ++ .error m :: post).takeWhile (fun c => !(isErrChunk c)) = pre := by
  induction pre with
  | nil => simp [List.takeWhile, isErrChunk]
  | cons c rest ih =>
    have hc := hpre c (by simp)
    have hrest : ∀ c ∈ rest, isErrChunk c = false := fun d hd => hpre d (by simp [hd])
    simp [List.takeWhile, hc, ih hrest]

theorem tryStreamWithFallback_no_error_chunk {ε : Type}
    (call : Fallback → List StreamChunk × Option ε) (msg : ε → String)
    (l : List Fallback) (errs : List AttemptErr) (m : String) :
    StreamChunk.error m ∉ (tryStreamWithFallback call msg l errs).output := by
  induction l generalizing errs with
  | nil => simp [tryStreamWithFallback]
  | cons f rest ih =>
    intro hmem
    have hfwd : ∀ c ∈ (call f).1.takeWhile (fun c => !(isErrChunk c)),
        isErrChunk c = false := by
      intro c hc
      simpa using List.mem_takeWhile_imp hc
    rcases h1 : firstErrorMsg (call f).1 with _ | m'
    · rcases h2 : (call f).2 with _ | e
      · simp only [tryStreamWithFallback, h1, h2] at hmem
        have := hfwd _ hmem
        simp [isErrChunk] at this
      · simp only [tryStreamWithFallback, h1, h2, List.mem_append] at hmem
        rcases hmem with hmem | hmem
        · have := hfwd _ hmem
          simp [isErrChunk] at this
        · exact ih _ hmem
    · simp only [tryStreamWithFallback, h1, List.mem_append] at hmem
      rcases hmem with hmem | hmem
      · have := hfwd _ hmem
        simp [isErrChunk] at this
      · exact ih _ hmem

/-- C5: in streaming chat without tool executors, for an attempt whose chunk
sequence yields `pre` (no error chunks) and then an error-tagged chunk: every
chunk of `pre` is forwarded in order, the attempt is recorded as failed with
the error chunk's message, and the walk continues with the next chain entry;
moreover no error-tagged chunk is ever part of the walker's forwarded
output. -/
theorem C5_stream_error_chunk_fallback {ε : Type}
    (call : Fallback → List StreamChunk × Option ε) (msg : ε → String)
    (f : Fallback) (rest : List Fallback) (errs : List AttemptErr)
    (pre post : List StreamChunk) (m : String) (raised : Option ε)
    (hcall : call f = (pre ++ .error m :: post, raised))
    (hpre : ∀ c ∈ pre, isErrChunk c = false) :
    tryStreamWithFallback call msg (f :: rest) errs =
      ⟨pre ++ (tryStreamWithFallback call msg rest
          (errs ++ [⟨f.adapter, f.model, chunkFailMsg m⟩])).output,
        f :: (tryStreamWithFallback call msg rest
          (errs ++ [⟨f.adapter, f.model, chunkFailMsg m⟩])).trace,
        (tryStreamWithFallback call msg rest
          (errs ++ [⟨f.adapter, f.model, chunkFailMsg m⟩])).failure⟩ ∧
    (∀ (l' : List Fallback) (errs' : List AttemptErr) (m' : String),
      StreamChunk.error m' ∉ (tryStreamWithFallback call msg l' errs').output) := by
  constructor
  · have h1 := firstErrorMsg_append_error pre m post hpre
    have h2 := takeWhile_append_error pre m post hpre
    simp only [tryStreamWithFallback, hcall, h1, h2]
  · intro l' errs' m'
    exact tryStreamWithFallback_no_error_chunk call msg l' errs' m'

/-- Witness for `C5_stream_error_chunk_fallback`: the first entry forwards two
content chunks then hits an error chunk; the second entry succeeds; the caller
observes the two partial chunks followed by the successful attempt's chunks,
and never the error chunk. -/
theorem C5_witness :
    tryStreamWithFallback
        (fun f => if f.adapter = "a"
          then ([.content "x", .content "y", .error "bad", .content "z"],
            (none : Option String))
          else ([.content "ok", .done "stop"], none))
        id [⟨"a", "m1"⟩, ⟨"b", "m2"⟩] [] =
      ⟨[StreamChunk.content "x", StreamChunk.content "y"] ++
          (tryStreamWithFallback
            (fun f => if f.adapter = "a"
              then ([.content "x", .content "y", .error "bad", .content "z"],
                (none : Option String))
              else ([.content "ok", .done "stop"], none))
            id [⟨"b", "m2"⟩] [⟨"a", "m1", chunkFailMsg "bad"⟩]).output,
        ⟨"a", "m1"⟩ :: (tryStreamWithFallback
            (fun f => if f.adapter = "a"
              then ([.content "x", .content "y", .error "bad", .content "z"],
                (none : Option String))
              else ([.content "ok", .done "stop"], none))
            id [⟨"b", "m2"⟩] [⟨"a", "m1", chunkFailMsg "bad"⟩]).trace,
        (tryStreamWithFallback
            (fun f => if f.adapter = "a"
              then ([.content "x", .content "y", .error "bad", .content "z"],
                (none : Option String))
              else ([.content "ok", .done "stop"], none))
            id [⟨"b", "m2"⟩] [⟨"a", "m1", chunkFailMsg "bad"⟩]).failure⟩ ∧
    (∀ (l' : List Fallback) (errs' : List AttemptErr) (m' : String),
      StreamChunk.error m' ∉ (tryStreamWithFallback
        (fun f => if f.adapter = "a"
          then ([.content "x", .content "y", .error "bad", .content "z"],
            (none : Option String))
          else ([.content "ok", .done "stop"], none))
        id l' errs').output) :=
  C5_stream_error_chunk_fallback _ id ⟨"a", "m1"⟩ [⟨"b", "m2"⟩] []
    [.content "x", .content "y"] [.content "z"] "bad" none
    (by decide) (by decide)

theorem mapSet_keys (acc : List (Nat × AccEntry)) (i : Nat) (v : AccEntry) :
    (mapSet acc i v).map Prod.fst =
      if i ∈ acc.map Prod.fst then acc.map Prod.fst
      else acc.map Prod.fst ++ [i] := by
  induction acc with
  | nil => simp [mapSet]
  | cons p rest ih =>
    by_cases hp : p.1 = i
    · simp [mapSet, hp]
    · have : i ≠ p.1 := fun h => hp h.symm
      simp only [mapSet, hp, if_false, List.map_cons, ih, List.mem_cons, this,
        false_or]
      by_cases hi : i ∈ rest.map Prod.fst <;> simp [hi, this]

theorem foldl_roundStep_keys (cs : List StreamChunk) (st : RoundState) :
    ((cs.foldl roundStep st).acc.map Prod.fst) =
      st.acc.map Prod.fst ++ newKeys (st.acc.map Prod.fst) (fragIndices cs) := by
  induction cs generalizing st with
  | nil => simp [newKeys]
  | cons c rest ih =>
    cases c with
    | toolCallFrag i id nm args =>
      simp only [List.foldl_cons, roundStep, ih]
      rw [mapSet_keys]
      by_cases hi : i ∈ st.acc.map Prod.fst
      · simp [fragIndices, newKeys, hi]
      · simp [fragIndices, newKeys, hi, List.append_assoc]
    | done fr =>
      by_cases hfr : fr = "tool_calls" <;>
        simp [List.foldl_cons, roundStep, hfr, ih, fragIndices]
    | content t => simp [List.foldl_cons, roundStep, ih, fragIndices]
    | error m => simp [List.foldl_cons, roundStep, ih, fragIndices]

theorem newKeys_fresh_nodup (l seen : List Nat) :
    (∀ i ∈ newKeys seen l, i ∉ seen) ∧ (newKeys seen l).Nodup := by
  induction l generalizing seen with
  | nil => simp [newKeys]
  | cons i rest ih =>
    by_cases hi : i ∈ seen
    · simpa [newKeys, hi] using ih seen
    · have h1 := ih (seen ++ [i])
      refine ⟨?_, ?_⟩
      · intro j hj
        simp only [newKeys, hi, if_false, List.mem_cons] at hj
        rcases hj with rfl | hj
        · exact hi
        · intro hjseen
          exact (h1.1 j hj) (by simp [hjseen])
      · simp only [newKeys, hi, if_false, List.nodup_cons]
        refine ⟨fun hmem => (h1.1 i hmem) (by simp), h1.2⟩

theorem foldl_roundStep_toolCalls (cs : List StreamChunk) (st : RoundState)
    (h : StreamChunk.done "tool_calls" ∉ cs) :
    (cs.foldl roundStep st).toolCalls = st.toolCalls ∧
    (cs.foldl roundStep st).hasToolCalls = st.hasToolCalls := by
  induction cs generalizing st with
  | nil => exact ⟨rfl, rfl⟩
  | cons c rest ih =>
    have hrest : StreamChunk.done "tool_calls" ∉ rest := fun hmem => h (by simp [hmem])
    have hstep : (roundStep st c).toolCalls = st.toolCalls ∧
        (roundStep st c).hasToolCalls = st.hasToolCalls := by
      cases c with
      | done fr =>
        have : fr ≠ "tool_calls" := by
          intro hfr
          exact h (by simp [hfr])
        simp [roundStep, this]
      | toolCallFrag i id nm args => simp [roundStep]
      | content t => simp [roundStep]
      | error m => simp [roundStep]
    have := ih (roundStep st c) hrest
    simp only [List.foldl_cons]
    exact ⟨this.1.trans hstep.1, this.2.trans hstep.2⟩

/-- C6: FALSE as stated.  `toolCallsMap.forEach` iterates a JavaScript `Map`
in insertion order, not by ascending key: with the index-1 fragment arriving
before the index-0 fragment, the finalized list puts the index-1 call
(id `"b"`) first, not the index-0 call (id `"a"`) as ascending-stream-index
order would require. -/
theorem C6_counterexample :
    (runRound [.toolCallFrag 1 "b" "g" "", .toolCallFrag 0 "a" "f" "",
        .done "tool_calls"]).toolCalls =
      [⟨"b", "g", ""⟩, ⟨"a", "f", ""⟩] ∧
    (runRound [.toolCallFrag 1 "b" "g" "", .toolCallFrag 0 "a" "f" "",
        .done "tool_calls"]).toolCalls ≠
      [⟨"a", "f", ""⟩, ⟨"b", "g", ""⟩] := by
  constructor
  · rfl
  · decide

/-- C6 (amended): when a round's terminal chunk carries finish reason
`"tool_calls"` (and no earlier chunk did), the finalized tool-call list
contains exactly one entry per accumulator stream index — the accumulator's
keys are duplicate-free — and is ordered by the accumulator's insertion order,
i.e. by the order in which each stream index FIRST appeared among the round's
tool-call fragments (not by ascending stream index). -/
theorem C6_finalized_tool_calls (body : List StreamChunk)
    (h : StreamChunk.done "tool_calls" ∉ body) :
    (runRound (body ++ [.done "tool_calls"])).toolCalls =
      (runRound body).acc.map (fun p => ⟨p.2.id, p.2.name, p.2.args⟩) ∧
    (runRound (body ++ [.done "tool_calls"])).hasToolCalls = true ∧
    ((runRound body).acc.map Prod.fst).Nodup ∧
    (runRound body).acc.map Prod.fst = newKeys [] (fragIndices body) := by
  have hkeys := foldl_roundStep_keys body ⟨[], false, []⟩
  have hnodup := (newKeys_fresh_nodup (fragIndices body) []).2
  have hpres := foldl_roundStep_toolCalls body ⟨[], false, []⟩ h
  have hsplit : runRound (body ++ [.done "tool_calls"]) =
      roundStep (runRound body) (.done "tool_calls") := by
    simp [runRound, List.foldl_append]
  refine ⟨?_, ?_, ?_, ?_⟩
  · rw [hsplit]
    simp [runRound, roundStep, hpres.1]
  · rw [hsplit]
    simp [roundStep]
  · simpa [runRound, hkeys] using hnodup
  · simpa [runRound] using hkeys

/-- Witness for `C6_finalized_tool_calls` at the out-of-order arrival of
`C6_counterexample` plus an extra fragment extending index 1: one finalized
entry per index, in first-arrival order `[1, 0]`. -/
theorem C6_witness :
    StreamChunk.done "tool_calls" ∉
      [StreamChunk.toolCallFrag 1 "b" "g" "", StreamChunk.toolCallFrag 0 "a" "f" "x",
        StreamChunk.toolCallFrag 1 "ignored" "" "y"] ∧
    (runRound ([.toolCallFrag 1 "b" "g" "", .toolCallFrag 0 "a" "f" "x",
        .toolCallFrag 1 "ignored" "" "y"] ++ [.done "tool_calls"])).toolCalls =
      (runRound [.toolCallFrag 1 "b" "g" "", .toolCallFrag 0 "a" "f" "x",
        .toolCallFrag 1 "ignored" "" "y"]).acc.map
        (fun p => ⟨p.2.id, p.2.name, p.2.args⟩) ∧
    ((runRound [.toolCallFrag 1 "b" "g" "", .toolCallFrag 0 "a" "f" "x",
        .toolCallFrag 1 "ignored" "" "y"]).acc.map Prod.fst).Nodup ∧
    (runRound [.toolCallFrag 1 "b" "g" "", .toolCallFrag 0 "a" "f" "x",
        .toolCallFrag 1 "ignored" "" "y"]).acc.map Prod.fst =
      newKeys [] (fragIndices [.toolCallFrag 1 "b" "g" "", .toolCallFrag 0 "a" "f" "x",
        .toolCallFrag 1 "ignored" "" "y"]) := by
  have h : StreamChunk.done "tool_calls" ∉
      [StreamChunk.toolCallFrag 1 "b" "g" "", StreamChunk.toolCallFrag 0 "a" "f" "x",
        StreamChunk.toolCallFrag 1 "ignored" "" "y"] := by decide
  have hmain := C6_finalized_tool_calls
    [.toolCallFrag 1 "b" "g" "", .toolCallFrag 0 "a" "f" "x",
      .toolCallFrag 1 "ignored" "" "y"] h
  exact ⟨h, hmain.1, hmain.2.2.1, hmain.2.2.2⟩

theorem toolLoop_trace_all_chosen {ε J : Type}
    (call : Fallback → List Message → List StreamChunk × Option ε)
    (parse : String → Except String J) (tools : List (Tool J)) (chosen : Fallback) :
    ∀ (fuel : Nat) (msgs : List Message) (f : Fallback),
      f ∈ (toolLoop call parse tools chosen fuel msgs).trace → f = chosen := by
  intro fuel
  induction fuel with
  | zero =>
    intro msgs f hf
    simp [toolLoop] at hf
  | succ n ih =>
    intro msgs f hf
    rcases h : (call chosen msgs).2 with _ | e
    · by_cases hif : (runRound (call chosen msgs).1).hasToolCalls = false ∨
          (runRound (call chosen msgs).1).toolCalls = []
      · simp [toolLoop, h, if_pos hif] at hf
        exact hf
      · simp only [toolLoop, h, if_neg hif, List.mem_cons] at hf
        rcases hf with rfl | hf
        · rfl
        · exact ih _ f hf
    · simp [toolLoop, h] at hf
      exact hf

theorem toolLoop_trace_le {ε J : Type}
    (call : Fallback → List Message → List StreamChunk × Option ε)
    (parse : String → Except String J) (tools : List (Tool J)) (chosen : Fallback) :
    ∀ (fuel : Nat) (msgs : List Message),
      (toolLoop call parse tools chosen fuel msgs).trace.length ≤ fuel := by
  intro fuel
  induction fuel with
  | zero =>
    intro msgs
    simp [toolLoop]
  | succ n ih =>
    intro msgs
    rcases h : (call chosen msgs).2 with _ | e
    · by_cases hif : (runRound (call chosen msgs).1).hasToolCalls = false ∨
          (runRound (call chosen msgs).1).toolCalls = []
      · simp [toolLoop, h, if_pos hif]
      · simp only [toolLoop, h, if_neg hif, List.length_cons]
        exact Nat.succ_le_succ (ih _)
    · simp [toolLoop, h]

theorem toolLoop_trace_eq_of_trigger {ε J : Type}
    (call : Fallback → List Message → List StreamChunk × Option ε)
    (parse : String → Except String J) (tools : List (Tool J)) (chosen : Fallback)
    (h : ∀ ms, (call chosen ms).2 = none ∧
      (runRound (call chosen ms).1).hasToolCalls = true ∧
      (runRound (call chosen ms).1).toolCalls ≠ []) :
    ∀ (fuel : Nat) (msgs : List Message),
      (toolLoop call parse tools chosen fuel msgs).trace.length = fuel ∧
      (toolLoop call parse tools chosen fuel msgs).raised = none := by
  intro fuel
  induction fuel with
  | zero =>
    intro msgs
    simp [toolLoop]
  | succ n ih =>
    intro msgs
    have hm := h msgs
    have hif : ¬((runRound (call chosen msgs).1).hasToolCalls = false ∨
        (runRound (call chosen msgs).1).toolCalls = []) := by
      simp [hm.2.1, hm.2.2]
    simp only [toolLoop, hm.1, if_neg hif, List.length_cons]
    exact ⟨by rw [(ih _).1], (ih _).2⟩

theorem toolLoop_early_stop {ε J : Type}
    (call : Fallback → List Message → List StreamChunk × Option ε)
    (parse : String → Except String J) (tools : List (Tool J)) (chosen : Fallback)
    (fuel : Nat) (msgs : List Message)
    (hraise : (call chosen msgs).2 = none)
    (hno : (runRound (call chosen msgs).1).hasToolCalls = false ∨
      (runRound (call chosen msgs).1).toolCalls = []) :
    toolLoop call parse tools chosen (fuel + 1) msgs =
      ⟨(call chosen msgs).1, [chosen], none, msgs⟩ := by
  simp [toolLoop, hraise, if_pos hno]

theorem toolLoop_raise_propagates {ε J : Type}
    (call : Fallback → List Message → List StreamChunk × Option ε)
    (parse : String → Except String J) (tools : List (Tool J)) (chosen : Fallback)
    (fuel : Nat) (msgs : List Message) (e : ε)
    (h : (call chosen msgs).2 = some e) :
    toolLoop call parse tools chosen (fuel + 1) msgs =
      ⟨(call chosen msgs).1, [chosen], some e, msgs⟩ := by
  simp [toolLoop, h]

theorem toolLoop_round_chunks_forwarded {ε J : Type}
    (call : Fallback → List Message → List StreamChunk × Option ε)
    (parse : String → Except String J) (tools : List (Tool J)) (chosen : Fallback)
    (fuel : Nat) (msgs : List Message) (c : StreamChunk)
    (hc : c ∈ (call chosen msgs).1) :
    c ∈ (toolLoop call parse tools chosen (fuel + 1) msgs).output := by
  rcases h : (call chosen msgs).2 with _ | e
  · by_cases hif : (runRound (call chosen msgs).1).hasToolCalls = false ∨
        (runRound (call chosen msgs).1).toolCalls = []
    · simp [toolLoop, h, if_pos hif, hc]
    · simp [toolLoop, h, if_neg hif, hc]
  · simp [toolLoop, h, hc]

theorem toolLoop_raised_none_of_no_raise {ε J : Type}
    (call : Fallback → List Message → List StreamChunk × Option ε)
    (parse : String → Except String J) (tools : List (Tool J)) (chosen : Fallback)
    (h : ∀ ms, (call chosen ms).2 = none) :
    ∀ (fuel : Nat) (msgs : List Message),
      (toolLoop call parse tools chosen fuel msgs).raised = none := by
  intro fuel
  induction fuel with
  | zero =>
    intro msgs
    simp [toolLoop]
  | succ n ih =>
    intro msgs
    by_cases hif : (runRound (call chosen msgs).1).hasToolCalls = false ∨
        (runRound (call chosen msgs).1).toolCalls = []
    · simp [toolLoop, h msgs, if_pos hif]
    · simp only [toolLoop, h msgs, if_neg hif]
      exact ih _

/-- C7: the tool-execution loop performs at most `fuel` rounds where `fuel` is
the configured maximum, and the default maximum when `maxIterations` is
unspecified is 5; against a backend that never raises and always produces a
tool-triggering round with a non-empty finalized list, the loop makes exactly
`fuel` backend streaming calls (so exactly 3 with `maxIterations = 3`) and
ends with no error raised; and the loop terminates after a single call as soon
as a round observes no tool-triggering terminal or an empty finalized
tool-call list. -/
theorem C7_max_rounds_and_early_stop {ε J : Type}
    (call : Fallback → List Message → List StreamChunk × Option ε)
    (parse : String → Except String J) (tools : List (Tool J)) (chosen : Fallback) :
    (∀ (fuel : Nat) (msgs : List Message),
      (toolLoop call parse tools chosen fuel msgs).trace.length ≤ fuel) ∧
    effectiveMaxIterations none = 5 ∧
    ((∀ ms, (call chosen ms).2 = none ∧
        (runRound (call chosen ms).1).hasToolCalls = true ∧
        (runRound (call chosen ms).1).toolCalls ≠ []) →
      ∀ (fuel : Nat) (msgs : List Message),
        (toolLoop call parse tools chosen fuel msgs).trace.length = fuel ∧
        (toolLoop call parse tools chosen fuel msgs).raised = none) ∧
    (∀ (fuel : Nat) (msgs : List Message), (call chosen msgs).2 = none →
      ((runRound (call chosen msgs).1).hasToolCalls = false ∨
        (runRound (call chosen msgs).1).toolCalls = []) →
      toolLoop call parse tools chosen (fuel + 1) msgs =
        ⟨(call chosen msgs).1, [chosen], none, msgs⟩) :=
  ⟨toolLoop_trace_le call parse tools chosen, rfl,
   fun h => toolLoop_trace_eq_of_trigger call parse tools chosen h,
   fun fuel msgs h1 h2 => toolLoop_early_stop call parse tools chosen fuel msgs h1 h2⟩

/-- Witness for `C7_max_rounds_and_early_stop`: with the always-tool-calls
backend and `maxIterations = 3`, exactly 3 backend streaming calls occur and
the stream ends with no error; the unspecified maximum defaults to 5. -/
theorem C7_witness :
    effectiveMaxIterations none = 5 ∧
    (toolLoop bstreamToolCalls parseOk [toolW] ⟨"a", "m"⟩ 3 []).trace.length = 3 ∧
    (toolLoop bstreamToolCalls parseOk [toolW] ⟨"a", "m"⟩ 3 []).raised = none := by
  have h := C7_max_rounds_and_early_stop bstreamToolCalls parseOk [toolW] ⟨"a", "m"⟩
  have htrig := h.2.2.1 (fun ms => ⟨rfl, rfl, by
    show (runRound [.toolCallFrag 0 "c1" "f" "\"x\"", .done "tool_calls"]).toolCalls ≠ []
    decide⟩) 3 []
  exact ⟨h.2.1, htrig.1, htrig.2⟩

/-- C8: for a finalized tool call resolved to an executable tool, when the
argument text fails to parse or the executable function raises with message
`m`, a tool-role message whose body is the structured error payload
`errorBody m` — carrying the call's id and function name — is appended to the
conversation and the pass continues with the remaining tool calls (the round
is not aborted); moreover tool failures never abort the overall streaming
call: when the backend itself never raises, the loop's `raised` outcome is
`none` no matter what the tools do. -/
theorem C8_tool_failure_recorded {ε J : Type} (parse : String → Except String J)
    (tools : List (Tool J)) (tc : ToolCall) (rest : List ToolCall)
    (msgs : List Message) (t : Tool J) (ex : J → Except String String) (m : String)
    (hfind : tools.find? (fun t => t.name == tc.name) = some t)
    (hex : t.execute = some ex)
    (hfail : parse tc.arguments = .error m ∨
      ∃ a, parse tc.arguments = .ok a ∧ ex a = .error m) :
    execTools parse tools (tc :: rest) msgs =
      execTools parse tools rest
        (msgs ++ [toolResultMsg (errorBody m) tc.id tc.name]) ∧
    (∀ (call : Fallback → List Message → List StreamChunk × Option ε)
        (chosen : Fallback), (∀ ms, (call chosen ms).2 = none) →
      ∀ (fuel : Nat) (msgs0 : List Message),
        (toolLoop call parse tools chosen fuel msgs0).raised = none) := by
  constructor
  · rcases hfail with hp | ⟨a, hp, he⟩
    · simp [execTools, hfind, hex, hp]
    · simp [execTools, hfind, hex, hp, he]
  · intro call chosen hc fuel msgs0
    exact toolLoop_raised_none_of_no_raise call parse tools chosen hc fuel msgs0

/-- Witness for `C8_tool_failure_recorded`: a tool call whose argument text
fails to parse appends the error-payload tool message and processing
continues; the loop over a non-raising backend ends with `raised = none`. -/
theorem C8_witness :
    execTools parseBad [toolW] [⟨"id1", "f", "notjson"⟩] [] =
      execTools parseBad [toolW] []
        [toolResultMsg (errorBody "bad json") "id1" "f"] ∧
    (toolLoop bstreamToolCalls parseBad [toolW] ⟨"a", "m"⟩ 2 []).raised = none := by
  have h := C8_tool_failure_recorded (ε := String) parseBad [toolW]
    ⟨"id1", "f", "notjson"⟩ [] [] toolW (fun a => .ok a) "bad json"
    rfl rfl (Or.inl rfl)
  refine ⟨?_, h.2 bstreamToolCalls ⟨"a", "m"⟩ (fun ms => rfl) 2 []⟩
  simpa using h.1

/-- C10: when at least one requested tool carries an executable function, the
streaming chat call runs the tool-execution loop against the single
initially-chosen adapter and model — in single-adapter mode the supplied pair,
in fallback-only mode the first entry of the effective chain — and the loop's
backend-invocation trace only ever contains that pair (the fallback chain is
never consulted); a raised backend error propagates to the caller immediately,
ending the round with the chunks already produced; and every chunk the backend
produced in a non-raising position — error-tagged chunks included — is part of
the forwarded output rather than suppressed for a retry. -/
theorem C10_tool_executors_single_adapter {ε J : Type} (cfg : Option (List Fallback))
    (bstream : Fallback → List Message → List StreamChunk × Option ε)
    (msg : ε → String) (parse : String → Except String J)
    (tools : Option (List (Tool J))) (messages : List Message) (maxIt : Option Nat)
    (hexec : hasToolExecutors tools = true) :
    (∀ a m fb,
      chatStream cfg bstream msg parse (.withAdapter a m fb tools messages maxIt) =
        ⟨(toolLoop bstream parse (tools.getD []) ⟨a, m⟩
            (effectiveMaxIterations maxIt) messages).output,
          (toolLoop bstream parse (tools.getD []) ⟨a, m⟩
            (effectiveMaxIterations maxIt) messages).trace,
          Option.map StreamFail.raised
            (toolLoop bstream parse (tools.getD []) ⟨a, m⟩
              (effectiveMaxIterations maxIt) messages).raised⟩) ∧
    (∀ fl f0 restChain, resolveFallbackList cfg (some fl) = some (f0 :: restChain) →
      chatStream cfg bstream msg parse (.fallbackOnly fl tools messages maxIt) =
        ⟨(toolLoop bstream parse (tools.getD []) f0
            (effectiveMaxIterations maxIt) messages).output,
          (toolLoop bstream parse (tools.getD []) f0
            (effectiveMaxIterations maxIt) messages).trace,
          Option.map StreamFail.raised
            (toolLoop bstream parse (tools.getD []) f0
              (effectiveMaxIterations maxIt) messages).raised⟩) ∧
    (∀ (chosen : Fallback) (fuel : Nat) (msgs : List Message) (f : Fallback),
      f ∈ (toolLoop bstream parse (tools.getD []) chosen fuel msgs).trace →
      f = chosen) ∧
    (∀ (chosen : Fallback) (fuel : Nat) (msgs : List Message) (e : ε),
      (bstream chosen msgs).2 = some e →
      toolLoop bstream parse (tools.getD []) chosen (fuel + 1) msgs =
        ⟨(bstream chosen msgs).1, [chosen], some e, msgs⟩) ∧
    (∀ (chosen : Fallback) (fuel : Nat) (msgs : List Message) (c : StreamChunk),
      c ∈ (bstream chosen msgs).1 →
      c ∈ (toolLoop bstream parse (tools.getD []) chosen (fuel + 1) msgs).output) := by
  refine ⟨?_, ?_, ?_, ?_, ?_⟩
  · intro a m fb
    simp [chatStream, hexec]
  · intro fl f0 restChain hres
    simp [chatStream, hres, hexec]
  · intro chosen fuel msgs f hf
    exact toolLoop_trace_all_chosen bstream parse (tools.getD []) chosen fuel msgs f hf
  · intro chosen fuel msgs e he
    exact toolLoop_raise_propagates bstream parse (tools.getD []) chosen fuel msgs e he
  · intro chosen fuel msgs c hc
    exact toolLoop_round_chunks_forwarded bstream parse (tools.getD []) chosen fuel msgs c hc

/-- Witness for `C10_tool_executors_single_adapter`: with an executable tool
supplied, the streaming call is the tool loop on the single chosen pair; the
backend's raise propagates after its two chunks (the error chunk among them)
were forwarded. -/
theorem C10_witness :
    hasToolExecutors (some [toolW]) = true ∧
    chatStream none bstreamRaise id parseOk
        (.withAdapter "a" "m" none (some [toolW]) [] none) =
      ⟨(toolLoop bstreamRaise parseOk ((some [toolW]).getD []) ⟨"a", "m"⟩
          (effectiveMaxIterations none) []).output,
        (toolLoop bstreamRaise parseOk ((some [toolW]).getD []) ⟨"a", "m"⟩
          (effectiveMaxIterations none) []).trace,
        Option.map StreamFail.raised
          (toolLoop bstreamRaise parseOk ((some [toolW]).getD []) ⟨"a", "m"⟩
            (effectiveMaxIterations none) []).raised⟩ ∧
    toolLoop bstreamRaise parseOk ((some [toolW]).getD []) ⟨"a", "m"⟩ (0 + 1) [] =
      ⟨(bstreamRaise ⟨"a", "m"⟩ []).1, [⟨"a", "m"⟩], some "boom", []⟩ ∧
    StreamChunk.error "oops" ∈
      (toolLoop bstreamRaise parseOk ((some [toolW]).getD []) ⟨"a", "m"⟩ (0 + 1) []).output := by
  have h := C10_tool_executors_single_adapter none bstreamRaise id parseOk
    (some [toolW]) [] none rfl
  exact ⟨rfl, h.1 "a" "m" none,
    h.2.2.2.1 ⟨"a", "m"⟩ 0 [] "boom" rfl,
    h.2.2.2.2 ⟨"a", "m"⟩ 0 [] (.error "oops") (by simp [bstreamRaise])⟩

theorem recordLookup_recordSet {α : Type} (l : List (String × α)) (k : String)
    (v : α) (k' : String) :
    recordLookup (recordSet l k v) k' =
      if k' = k then some v else recordLookup l k' := by
  induction l with
  | nil =>
    by_cases h : k' = k
    · simp [recordSet, recordLookup, h]
    · have : k ≠ k' := fun hk => h hk.symm
      simp [recordSet, recordLookup, h, this]
  | cons p rest ih =>
    by_cases hp : p.1 = k
    · by_cases h : k' = k
      · simp [recordSet, recordLookup, hp, h]
      · have hk : k ≠ k' := fun hk => h hk.symm
        have hpk : p.1 ≠ k' := hp ▸ hk
        simp [recordSet, recordLookup, hp, h, hk, hpk]
    · by_cases hq : p.1 = k'
      · have : ¬k' = k := fun h => hp (hq.trans h)
        simp [recordSet, recordLookup, hp, hq, this]
      · simp [recordSet, recordLookup, hp, hq, ih]

/-- C9: `addAdapter(name, backend)` returns a new orchestrator whose adapter
registry is the receiver's registry plus the new entry — overwriting an entry
of the same name, leaving every other name's binding unchanged — while the
returned instance carries no default fallback chain and an empty tool
registry.  The receiver is a value of the pure model, hence itself unchanged
(the source likewise never mutates `this`, it builds a spread copy). -/
theorem C9_addAdapter_extends {α τ : Type} (ai : AI α τ) (nm : String) (b : α) :
    (∀ k, recordLookup (ai.addAdapter nm b).adapters k =
      if k = nm then some b else recordLookup ai.adapters k) ∧
    (ai.addAdapter nm b).fallbacks = none ∧
    (ai.addAdapter nm b).tools = [] :=
  ⟨fun k => recordLookup_recordSet ai.adapters nm b k, rfl, rfl⟩
